import Mathlib

/-! Verification of the `flip` contract.

A shallow embedding of `contract/random.go` and `contract/main.go`.

* Go `uint64` values are natural numbers; every `uint64` operation of the source is
  written with an explicit reduction modulo `2 ^ 64` (`wmul`, `wadd`).
* Go strings are Lean strings.  The only byte the contract inspects is the separator
  `|`, which is a one-byte code point that never occurs inside a multi-byte UTF-8
  sequence, so splitting characters and splitting bytes agree on well-formed text.
* A Go slice of strings is a `List String`.  Indexing and the remainder operation are
  checked: an index out of range or a zero divisor is a run-time panic in Go and is
  `none` here.
* The host calls of the `sdk` package are explicit state passing over `Host`.
-/

namespace FlipContract

/-! ## Machine arithmetic -/

/-- Go `uint64` multiplication: the product wraps modulo `2 ^ 64`. -/
def wmul (a b : Nat) : Nat := (a * b) % 2 ^ 64

/-- Go `uint64` addition: the sum wraps modulo `2 ^ 64`. -/
def wadd (a b : Nat) : Nat := (a + b) % 2 ^ 64

/-- Go `%` on unsigned integers: a zero divisor is a run-time panic (`none`). -/
def umod (a b : Nat) : Option Nat := if b = 0 then none else some (a % b)

/-! ## `random.go` -/

/-- Embedding of `generateSeed`: `blockHeight*1000003 + index*1009 + opIndex`, each
operation being the wrapping `uint64` one, in the source's evaluation order. -/
def generateSeed (blockHeight index opIndex : Nat) : Nat :=
  wadd (wadd (wmul blockHeight 1000003) (wmul index 1009)) opIndex

/-- One generator step of `shuffleWithSeed`: `state = (a*state + c) % m` with
`a = 1664525`, `c = 1013904223`, `m = 1 << 32`, the product and the sum being `uint64`
operations. -/
def lcgNext (state : Nat) : Nat := wadd (wmul 1664525 state) 1013904223 % 2 ^ 32

/-- The swap `result[i], result[j] = result[j], result[i]`: both operands are read
first (an index out of range panics, `none`), then `result[i]` and `result[j]` are
assigned in that order. -/
def swapAt (result : List String) (i j : Nat) : Option (List String) :=
  match result[i]?, result[j]? with
  | some x, some y => some ((result.set i y).set j x)
  | _, _ => none

/-- The loop `for i := n - 1; i > 0; i--` of `shuffleWithSeed`, entered with the loop
variable equal to the last argument.  When that argument is `0` the guard `i > 0`
fails and the buffer is returned. -/
def shuffleLoop (result : List String) (state : Nat) : Nat → Option (List String)
  | 0 => some result
  | i + 1 =>
    let state1 := lcgNext state
    match umod state1 (i + 1 + 1) with
    | none => none
    | some j =>
      match swapAt result (i + 1) j with
      | none => none
      | some result1 => shuffleLoop result1 state1 i

/-- Embedding of `shuffleWithSeed`.  The buffer `result` is a copy of `items`, and
the loop starts at `n - 1`.  For `n = 0` the Go loop variable starts at `-1` and the
guard `i > 0` fails at once, which is also what the truncated `0 - 1 = 0` gives.
The value is `none` exactly when the Go function would panic. -/
def shuffleWithSeed (items : List String) (seed : Nat) : Option (List String) :=
  shuffleLoop items seed (items.length - 1)

/-! ## Strings: `strconv.FormatUint`, `strings.Split`, `strings.Join` -/

/-- The decimal digit character of `d < 10`. -/
def digitChar (d : Nat) : Char := Char.ofNat (48 + d)

/-- Digits of `u`, most significant first, in front of `acc`; the first argument
bounds the number of digits produced. -/
def formatBits : Nat → Nat → List Char → List Char
  | 0, _, acc => acc
  | fuel + 1, u, acc =>
    if u < 10 then digitChar u :: acc
    else formatBits fuel (u / 10) (digitChar (u % 10) :: acc)

/-- The library call `strconv.FormatUint(u, 10)`: the decimal numeral of `u` without
leading zeros.  A number has at most `u + 1` digits, so the bound is never reached. -/
def FormatUint (u : Nat) : String := String.mk (formatBits (u + 1) u [])

/-- Splitting a sequence of characters at every `sep`: one more piece than there are
separators, pieces may be empty. -/
def splitChars (sep : Char) : List Char → List (List Char)
  | [] => [[]]
  | c :: cs =>
    if c = sep then [] :: splitChars sep cs
    else
      match splitChars sep cs with
      | [] => [[c]]
      | t :: ts => (c :: t) :: ts

/-- The library call `strings.Split(s, sep)` for a one-character separator: the
substrings of `s` between the occurrences of `sep`, in order (`[""]` for the empty
string). -/
def Split (s : String) (sep : Char) : List String :=
  (splitChars sep s.data).map String.mk

/-- The library call `strings.Join(elems, sep)`: the elements concatenated with `sep`
between consecutive ones. -/
def Join : List String → String → String
  | [], _ => ""
  | [x], _ => x
  | x :: y :: rest, sep => x ++ sep ++ Join (y :: rest) sep

/-! ## The host (`sdk` package) -/

/-- The execution environment returned by `sdk.GetEnv()`, restricted to the fields
`Flip` reads: `Sender` is `env.Sender.Address.String()`, the three others are the
`uint64` chain position. -/
structure Env where
  Sender : String
  BlockHeight : Nat
  Index : Nat
  OpIndex : Nat

/-- An effectful host call made by the contract. -/
inductive HostCall where
  | stateSet (key value : String)
  | log (line : String)
  deriving DecidableEq

/-- The host as the contract sees it: the persistent key-value state and the journal
of the effectful calls made so far, oldest first. -/
structure Host where
  state : String → Option String
  calls : List HostCall

/-- How a call of the entry point ends: an abort with a message (nothing is
returned), a returned string, or a Go run-time panic. -/
inductive Outcome where
  | aborted (msg : String)
  | returned (value : String)
  | panicked
  deriving DecidableEq

/-- Modelled from the spec: `sdk.Abort` of the missing `sdk` package.  "Abort
signaling: a distinguished host call that marks the invocation failed with a given
message string; no return value is produced on this path"; it writes no state and
emits no log. -/
def sdk.Abort (msg : String) (h : Host) : Outcome × Host := (Outcome.aborted msg, h)

/-- Modelled from the spec: `sdk.StateSetObject` of the missing `sdk` package.  "a
single upsert, overwrite semantics": the key is bound to the value, every other key
keeps its value. -/
def sdk.StateSetObject (key value : String) (h : Host) : Host :=
  { state := fun k => if k = key then some value else h.state k
    calls := h.calls ++ [HostCall.stateSet key value] }

/-- Modelled from the spec: `sdk.Log` of the missing `sdk` package: one log line is
handed to the host, the persistent state is untouched. -/
def sdk.Log (line : String) (h : Host) : Host :=
  { state := h.state
    calls := h.calls ++ [HostCall.log line] }

/-- The state writes of a journal, oldest first. -/
def stateWrites : List HostCall → List (String × String)
  | [] => []
  | HostCall.stateSet k v :: rest => (k, v) :: stateWrites rest
  | HostCall.log _ :: rest => stateWrites rest

/-- The log lines of a journal, oldest first. -/
def logLines : List HostCall → List String
  | [] => []
  | HostCall.stateSet _ _ :: rest => logLines rest
  | HostCall.log l :: rest => l :: logLines rest

/-! ## `main.go` -/

/-- The storage key built in `Flip`: the three decimal numerals joined by `-`. -/
def storageKey (env : Env) : String :=
  FormatUint env.BlockHeight ++ "-" ++ FormatUint env.Index ++ "-" ++
    FormatUint env.OpIndex

/-- Embedding of `Flip`.  `payload` is the nullable `*string`; `env` is what
`sdk.GetEnv()` returns; the host is threaded through the calls in source order. -/
def Flip (payload : Option String) (env : Env) (h : Host) : Outcome × Host :=
  match payload with
  | none => sdk.Abort "payload is required" h
  | some p =>
    if p = "" then sdk.Abort "payload is required" h
    else
      let possibilities := Split p '|'
      if possibilities.length < 2 then
        sdk.Abort "at least 2 possibilities are required" h
      else
        let sender := env.Sender
        let seed := generateSeed env.BlockHeight env.Index env.OpIndex
        match shuffleWithSeed possibilities seed with
        | none => (Outcome.panicked, h)
        | some shuffled =>
          let result := Join shuffled "|"
          let key := storageKey env
          let h1 := sdk.StateSetObject key result h
          let logMessage := "flip;sender:" ++ sender ++ ";result:" ++ result
          let h2 := sdk.Log logMessage h1
          (Outcome.returned (key ++ " -> " ++ result), h2)

/-- The host after the two effectful calls of a successful `Flip`, in source order:
`sdk.StateSetObject(storageKey, result)` and then `sdk.Log(logMessage)`. -/
def committed (env : Env) (result : String) (h : Host) : Host :=
  sdk.Log ("flip;sender:" ++ env.Sender ++ ";result:" ++ result)
    (sdk.StateSetObject (storageKey env) result h)

/-- A host with an empty state and an empty journal. -/
def emptyHost : Host := { state := fun _ => none, calls := [] }

/-- The environment of the end-to-end scenario. -/
def scenarioEnv : Env :=
  { Sender := "hive:flipuser", BlockHeight := 12345678, Index := 0, OpIndex := 0 }

/-- The end-to-end scenario seen by another caller. -/
def otherSenderEnv : Env :=
  { Sender := "hive:flipowner", BlockHeight := 12345678, Index := 0, OpIndex := 0 }

/-- A list of thirteen distinct items. -/
def thirteenItems : List String :=
  ["a", "b", "c", "d", "e", "f", "g", "h", "i", "j", "k", "l", "m"]

/-! ## Reading a decimal numeral back -/

/-- The value of a decimal digit character. -/
def digitValue (c : Char) : Nat := c.toNat - 48

/-- The number denoted by a sequence of decimal digit characters. -/
def parseDec (l : List Char) : Nat := l.foldl (fun n c => 10 * n + digitValue c) 0

/-! ## Instrumented loop -/

/-- What one iteration of the loop of `shuffleWithSeed` works with: the loop variable
`i`, the divisor `uint64(i+1)`, the computed index `j`, and `len(result)`. -/
structure Iteration where
  i : Nat
  divisor : Nat
  j : Nat
  len : Nat
  deriving DecidableEq

/-- The loop of `shuffleWithSeed` again, recording every iteration it executes instead
of returning the buffer.  Like the loop itself it stops at a zero divisor (before the
iteration is recorded) and at an index out of range (after it is recorded). -/
def shuffleTrace (result : List String) (state : Nat) : Nat → List Iteration
  | 0 => []
  | i + 1 =>
    let state1 := lcgNext state
    match umod state1 (i + 1 + 1) with
    | none => []
    | some j =>
      { i := i + 1, divisor := i + 1 + 1, j := j, len := result.length } ::
        match swapAt result (i + 1) j with
        | none => []
        | some result1 => shuffleTrace result1 state1 i

/-! ## The reference shuffle of the specification -/

/-- Reference generator step, in the spec's words: `state = (a*state + c) mod m` with
`a = 1_664_525`, `c = 1_013_904_223`, `m = 2^32`, in exact integer arithmetic. -/
def specNext (state : Nat) : Nat := (1664525 * state + 1013904223) % 2 ^ 32

/-- Reference swap: exchange the elements at positions `i` and `j`. -/
def specSwap (items : List String) (i j : Nat) : List String :=
  (items.set i (items.getD j "")).set j (items.getD i "")

/-- One round of the reference algorithm at index `i`: advance the state, compute
`j = state mod (i+1)`, swap the elements at positions `i` and `j`. -/
def specStep (acc : List String × Nat) (i : Nat) : List String × Nat :=
  (specSwap acc.1 i (specNext acc.2 % (i + 1)), specNext acc.2)

/-- The indices of the reference algorithm: `len-1` down to `1`. -/
def specIndices (len : Nat) : List Nat := (List.range' 1 (len - 1)).reverse

/-- The seeded Fisher-Yates of the specification: copy the items, start from
`state = seed`, and run one round for each `i` from `len-1` down to `1`. -/
def specShuffle (items : List String) (seed : Nat) : List String :=
  ((specIndices items.length).foldl specStep (items, seed)).1

/-! ## Helper lemmas on the arithmetic and the shuffle -/

theorem wmul_eq (a b : Nat) : wmul a b = (a * b) % 2 ^ 64 := rfl

theorem wadd_eq (a b : Nat) : wadd a b = (a + b) % 2 ^ 64 := rfl

theorem swapAt_eq_some (r : List String) (i j : Nat) (hi : i < r.length)
    (hj : j < r.length) :
    swapAt r i j = some ((r.set i (r.get ⟨j, hj⟩)).set j (r.get ⟨i, hi⟩)) := by
  unfold swapAt
  rw [List.getElem?_eq_getElem hi, List.getElem?_eq_getElem hj]
  rfl

/-- Overwriting position `j` with `a` and putting the old entry in front is a
rearrangement of `a :: t`. -/
theorem head_set_perm (a : String) :
    ∀ (t : List String) (j : Nat) (hj : j < t.length),
      (t.get ⟨j, hj⟩ :: t.set j a).Perm (a :: t)
  | [], j, hj => absurd hj (Nat.not_lt_zero j)
  | b :: t, 0, _ => List.Perm.swap a b t
  | b :: t, j + 1, hj => by
    have hj1 : j < t.length := Nat.lt_of_succ_lt_succ hj
    have ih := head_set_perm a t j hj1
    have h1 : ((b :: t).get ⟨j + 1, hj⟩ :: (b :: t).set (j + 1) a).Perm
        (b :: t.get ⟨j, hj1⟩ :: t.set j a) := List.Perm.swap _ _ _
    exact h1.trans ((ih.cons b).trans (List.Perm.swap a b t))

/-- Exchanging two in-range positions of a list rearranges it. -/
theorem set_swap_perm :
    ∀ (r : List String) (i j : Nat) (hi : i < r.length) (hj : j < r.length),
      ((r.set i (r.get ⟨j, hj⟩)).set j (r.get ⟨i, hi⟩)).Perm r
  | [], i, _, hi, _ => absurd hi (Nat.not_lt_zero i)
  | _ :: _, 0, 0, _, _ => List.Perm.refl _
  | a :: t, 0, j + 1, _, hj => head_set_perm a t j (Nat.lt_of_succ_lt_succ hj)
  | a :: t, i + 1, 0, hi, _ => head_set_perm a t i (Nat.lt_of_succ_lt_succ hi)
  | a :: t, i + 1, j + 1, hi, hj =>
    (set_swap_perm t i j (Nat.lt_of_succ_lt_succ hi) (Nat.lt_of_succ_lt_succ hj)).cons a

theorem swapAt_perm (r : List String) (i j : Nat) (hi : i < r.length)
    (hj : j < r.length) : ∃ r1, swapAt r i j = some r1 ∧ r1.Perm r :=
  ⟨_, swapAt_eq_some r i j hi hj, set_swap_perm r i j hi hj⟩

/-- The loop never panics and rearranges the buffer, as long as it starts at an index
inside the buffer (or at `0`). -/
theorem shuffleLoop_perm :
    ∀ (i : Nat) (r : List String) (s : Nat), (i = 0 ∨ i < r.length) →
      ∃ r1, shuffleLoop r s i = some r1 ∧ r1.Perm r
  | 0, r, _, _ => ⟨r, rfl, List.Perm.refl r⟩
  | i + 1, r, s, h => by
    have hi : i + 1 < r.length := by
      rcases h with h | h
      · exact absurd h (Nat.succ_ne_zero i)
      · exact h
    have hj : lcgNext s % (i + 1 + 1) < r.length :=
      Nat.lt_of_lt_of_le (Nat.mod_lt _ (Nat.succ_pos _)) hi
    obtain ⟨r1, hswap, hperm⟩ := swapAt_perm r (i + 1) (lcgNext s % (i + 1 + 1)) hi hj
    have hlen : r1.length = r.length := hperm.length_eq
    obtain ⟨r2, hloop, hperm2⟩ :=
      shuffleLoop_perm i r1 (lcgNext s) (Or.inr (by rw [hlen]; exact Nat.lt_of_succ_lt hi))
    refine ⟨r2, ?_, hperm2.trans hperm⟩
    simp only [shuffleLoop, umod, Nat.succ_ne_zero, if_false, hswap]
    exact hloop

theorem shuffleWithSeed_perm (items : List String) (seed : Nat) :
    ∃ r, shuffleWithSeed items seed = some r ∧ r.Perm items := by
  apply shuffleLoop_perm
  cases items with
  | nil => exact Or.inl rfl
  | cons a t => exact Or.inr (by simp)

/-! ## Helper lemmas on the entry point -/

theorem splitChars_length (sep : Char) :
    ∀ l : List Char, (splitChars sep l).length = l.count sep + 1
  | [] => rfl
  | c :: cs => by
    have ih := splitChars_length sep cs
    by_cases hc : c = sep
    · subst hc
      simp [splitChars, ih]
    · have hne : (c == sep) = false := by simpa using hc
      rw [List.count_cons, hne]
      simp only [splitChars, hc, if_false]
      cases hsp : splitChars sep cs with
      | nil => rw [hsp] at ih; simp at ih
      | cons t ts => rw [hsp] at ih; simpa using ih

theorem Split_length (p : String) (sep : Char) :
    (Split p sep).length = p.data.count sep + 1 := by
  simp [Split, splitChars_length]

theorem Split_length_lt_two (p : String) :
    (Split p '|').length < 2 ↔ '|' ∉ p.data := by
  rw [Split_length, ← List.count_eq_zero]
  omega

theorem stateWrites_append (l₁ l₂ : List HostCall) :
    stateWrites (l₁ ++ l₂) = stateWrites l₁ ++ stateWrites l₂ := by
  induction l₁ with
  | nil => rfl
  | cons c l ih => cases c <;> simp [stateWrites, ih]

theorem logLines_append (l₁ l₂ : List HostCall) :
    logLines (l₁ ++ l₂) = logLines l₁ ++ logLines l₂ := by
  induction l₁ with
  | nil => rfl
  | cons c l ih => cases c <;> simp [logLines, ih]

/-- The three ways a call of `Flip` can go. -/
theorem Flip_cases (payload : Option String) (env : Env) (h : Host) :
    ((payload = none ∨ payload = some "") ∧
        Flip payload env h = (Outcome.aborted "payload is required", h)) ∨
    (∃ p, payload = some p ∧ p ≠ "" ∧ '|' ∉ p.data ∧
        Flip payload env h =
          (Outcome.aborted "at least 2 possibilities are required", h)) ∨
    (∃ p shuffled, payload = some p ∧ p ≠ "" ∧ '|' ∈ p.data ∧
        shuffleWithSeed (Split p '|')
          (generateSeed env.BlockHeight env.Index env.OpIndex) = some shuffled ∧
        shuffled.Perm (Split p '|') ∧
        Flip payload env h =
          (Outcome.returned (storageKey env ++ " -> " ++ Join shuffled "|"),
            committed env (Join shuffled "|") h)) := by
  cases payload with
  | none => exact Or.inl ⟨Or.inl rfl, rfl⟩
  | some p =>
    by_cases hp : p = ""
    · subst hp
      exact Or.inl ⟨Or.inr rfl, rfl⟩
    · by_cases hm : '|' ∈ p.data
      · obtain ⟨shuffled, hs, hperm⟩ := shuffleWithSeed_perm (Split p '|')
          (generateSeed env.BlockHeight env.Index env.OpIndex)
        have hl : ¬ (Split p '|').length < 2 := by
          rw [Split_length_lt_two]; exact fun hn => hn hm
        refine Or.inr (Or.inr ⟨p, shuffled, rfl, hp, hm, hs, hperm, ?_⟩)
        simp only [Flip, hp, if_false, hl, hs, committed]
      · have hl : (Split p '|').length < 2 := (Split_length_lt_two p).2 hm
        refine Or.inr (Or.inl ⟨p, rfl, hp, hm, ?_⟩)
        simp only [Flip, hp, if_false, hl, if_true, sdk.Abort]

/-- The returned string of a call whose payload contains the separator. -/
theorem Flip_fst_of_shuffle (p : String) (env : Env) (h : Host) (shuffled : List String)
    (hp : '|' ∈ p.data)
    (hs : shuffleWithSeed (Split p '|')
      (generateSeed env.BlockHeight env.Index env.OpIndex) = some shuffled) :
    (Flip (some p) env h).1 =
      Outcome.returned (storageKey env ++ " -> " ++ Join shuffled "|") := by
  have hl : ¬ (Split p '|').length < 2 := by
    rw [Split_length_lt_two]; exact fun hn => hn hp
  have hne : p ≠ "" := by
    rintro rfl
    simp at hp
  simp only [Flip, hne, if_false, hl, hs]

/-- The whole result of a call whose payload contains the separator. -/
theorem Flip_of_shuffle (p : String) (env : Env) (h : Host) (shuffled : List String)
    (hp : '|' ∈ p.data)
    (hs : shuffleWithSeed (Split p '|')
      (generateSeed env.BlockHeight env.Index env.OpIndex) = some shuffled) :
    Flip (some p) env h =
      (Outcome.returned (storageKey env ++ " -> " ++ Join shuffled "|"),
        committed env (Join shuffled "|") h) := by
  have hl : ¬ (Split p '|').length < 2 := by
    rw [Split_length_lt_two]; exact fun hn => hn hp
  have hne : p ≠ "" := by
    rintro rfl
    simp at hp
  simp only [Flip, hne, if_false, hl, hs, committed]

/-- The whole result of a call whose non-empty payload has no separator. -/
theorem Flip_of_no_sep (p : String) (env : Env) (h : Host) (hne : p ≠ "")
    (hp : '|' ∉ p.data) :
    Flip (some p) env h = (Outcome.aborted "at least 2 possibilities are required", h) := by
  have hl : (Split p '|').length < 2 := (Split_length_lt_two p).2 hp
  simp only [Flip, hne, if_false, hl, if_true, sdk.Abort]

theorem stateWrites_committed (env : Env) (result : String) (h : Host) :
    stateWrites (committed env result h).calls =
      stateWrites h.calls ++ [(storageKey env, result)] := by
  simp [committed, sdk.Log, sdk.StateSetObject, stateWrites_append, stateWrites]

theorem logLines_committed (env : Env) (result : String) (h : Host) :
    logLines (committed env result h).calls =
      logLines h.calls ++ ["flip;sender:" ++ env.Sender ++ ";result:" ++ result] := by
  simp [committed, sdk.Log, sdk.StateSetObject, logLines_append, logLines]

theorem state_committed (env : Env) (result : String) (h : Host) (k : String) :
    (committed env result h).state k =
      if k = storageKey env then some result else h.state k := rfl

theorem string_append_left_cancel (a b c : String) (h : a ++ b = a ++ c) : b = c := by
  have hd := congrArg String.data h
  simp only [String.data_append] at hd
  exact String.ext (List.append_cancel_left hd)

theorem generateSeed_eq (h i o : Nat) :
    generateSeed h i o = (h * 1000003 + i * 1009 + o) % 2 ^ 64 := by
  simp only [generateSeed, wadd_eq, wmul_eq]
  omega

theorem generateSeed_lt (h i o : Nat) : generateSeed h i o < 2 ^ 64 := by
  rw [generateSeed, wadd_eq]
  exact Nat.mod_lt _ (by decide)

/-- Multiplication by an odd constant is injective modulo `2 ^ 64`. -/
theorem odd_mul_cancel (c a b : Nat) (hc : Nat.gcd (2 ^ 64) c = 1) (ha : a < 2 ^ 64)
    (hb : b < 2 ^ 64) (h : a * c ≡ b * c [MOD 2 ^ 64]) : a = b :=
  (Nat.ModEq.cancel_right_of_coprime hc h).eq_of_lt_of_lt ha hb

theorem string_length_append_lt (a b : String) (ha : 0 < a.length) : b ≠ a ++ b := by
  intro h
  have hl := congrArg String.length h
  rw [String.length_append] at hl
  omega

theorem lcgNext_eq_specNext (state : Nat) : lcgNext state = specNext state := by
  simp only [lcgNext, specNext, wadd_eq, wmul_eq]
  omega

theorem lcgNext_lt (state : Nat) : lcgNext state < 2 ^ 32 := by
  rw [lcgNext]
  exact Nat.mod_lt _ (by decide)

theorem swapAt_eq_specSwap (r : List String) (i j : Nat) (hi : i < r.length)
    (hj : j < r.length) : swapAt r i j = some (specSwap r i j) := by
  rw [swapAt_eq_some r i j hi hj, specSwap, List.getD_eq_getElem r "" hi,
    List.getD_eq_getElem r "" hj]
  rfl

theorem specSwap_length (r : List String) (i j : Nat) : (specSwap r i j).length = r.length := by
  simp [specSwap]

/-- The loop of the code computes the reference rounds for the indices `i, ..., 1`. -/
theorem shuffleLoop_eq_spec :
    ∀ (i : Nat) (r : List String) (s : Nat), (i = 0 ∨ i < r.length) →
      shuffleLoop r s i = some (((List.range' 1 i).reverse.foldl specStep (r, s)).1)
  | 0, r, _, _ => rfl
  | i + 1, r, s, h => by
    have hi : i + 1 < r.length := by
      rcases h with h | h
      · exact absurd h (Nat.succ_ne_zero i)
      · exact h
    have hj : lcgNext s % (i + 1 + 1) < r.length :=
      Nat.lt_of_lt_of_le (Nat.mod_lt _ (Nat.succ_pos _)) hi
    have hswap := swapAt_eq_specSwap r (i + 1) (lcgNext s % (i + 1 + 1)) hi hj
    have ih := shuffleLoop_eq_spec i (specSwap r (i + 1) (lcgNext s % (i + 1 + 1)))
      (lcgNext s) (Or.inr (by rw [specSwap_length]; exact Nat.lt_of_succ_lt hi))
    have hr : (List.range' 1 (i + 1)).reverse = (i + 1) :: (List.range' 1 i).reverse := by
      rw [List.range'_1_concat, List.reverse_append, Nat.add_comm 1 i]
      rfl
    simp only [shuffleLoop, umod, Nat.succ_ne_zero, if_false, hswap]
    rw [ih, hr, List.foldl_cons]
    simp only [specStep, lcgNext_eq_specNext]

/-- Every iteration is executed, and each one divides by at least 2 and indexes inside
the buffer. -/
theorem shuffleTrace_safe :
    ∀ (i : Nat) (r : List String) (s : Nat), (i = 0 ∨ i < r.length) →
      (shuffleTrace r s i).length = i ∧
        ∀ t ∈ shuffleTrace r s i,
          t.divisor = t.i + 1 ∧ 2 ≤ t.divisor ∧ t.j ≤ t.i ∧ t.i < t.len ∧
            t.len = r.length
  | 0, r, _, _ => ⟨rfl, fun t ht => by simp [shuffleTrace] at ht⟩
  | i + 1, r, s, h => by
    have hi : i + 1 < r.length := by
      rcases h with h | h
      · exact absurd h (Nat.succ_ne_zero i)
      · exact h
    have hjlt : lcgNext s % (i + 1 + 1) < i + 1 + 1 := Nat.mod_lt _ (Nat.succ_pos _)
    have hj : lcgNext s % (i + 1 + 1) < r.length := Nat.lt_of_lt_of_le hjlt hi
    have hswap := swapAt_eq_specSwap r (i + 1) (lcgNext s % (i + 1 + 1)) hi hj
    obtain ⟨ihlen, ihall⟩ := shuffleTrace_safe i
      (specSwap r (i + 1) (lcgNext s % (i + 1 + 1))) (lcgNext s)
      (Or.inr (by rw [specSwap_length]; exact Nat.lt_of_succ_lt hi))
    simp only [shuffleTrace, umod, Nat.succ_ne_zero, if_false, hswap]
    refine ⟨by simp [ihlen], ?_⟩
    intro t ht
    rcases List.mem_cons.1 ht with rfl | ht
    · exact ⟨rfl, by simp, Nat.lt_succ_iff.1 hjlt, hi, rfl⟩
    · have := ihall t ht
      rw [specSwap_length] at this
      exact this

theorem digitValue_digitChar (d : Nat) (hd : d < 10) : digitValue (digitChar d) = d := by
  interval_cases d <;> rfl

theorem digitChar_ne_dash (d : Nat) (hd : d < 10) : digitChar d ≠ '-' := by
  interval_cases d <;> decide

theorem foldl_formatBits :
    ∀ (fuel u : Nat) (acc : List Char), u < fuel →
      (formatBits fuel u acc).foldl (fun n c => 10 * n + digitValue c) 0 =
        acc.foldl (fun n c => 10 * n + digitValue c) u
  | 0, u, _, h => absurd h (Nat.not_lt_zero u)
  | fuel + 1, u, acc, h => by
    by_cases hu : u < 10
    · simp only [formatBits, hu, if_true, List.foldl_cons, digitValue_digitChar u hu]
      simp
    · have hdiv : u / 10 < fuel := by omega
      have hmod : u % 10 < 10 := Nat.mod_lt _ (by decide)
      simp only [formatBits, hu, if_false]
      rw [foldl_formatBits fuel (u / 10) _ hdiv, List.foldl_cons,
        digitValue_digitChar _ hmod]
      congr 1
      omega

theorem parseDec_FormatUint (u : Nat) : parseDec (FormatUint u).data = u := by
  rw [FormatUint, parseDec, foldl_formatBits (u + 1) u [] (Nat.lt_succ_self u)]
  rfl

theorem FormatUint_injective (a b : Nat) (h : FormatUint a = FormatUint b) : a = b := by
  rw [← parseDec_FormatUint a, ← parseDec_FormatUint b, h]

theorem formatBits_mem :
    ∀ (fuel u : Nat) (acc : List Char) (c : Char), c ∈ formatBits fuel u acc →
      c ∈ acc ∨ ∃ d, d < 10 ∧ c = digitChar d
  | 0, _, _, _, h => Or.inl h
  | fuel + 1, u, acc, c, h => by
    by_cases hu : u < 10
    · simp only [formatBits, hu, if_true, List.mem_cons] at h
      rcases h with h | h
      · exact Or.inr ⟨u, hu, h⟩
      · exact Or.inl h
    · simp only [formatBits, hu, if_false] at h
      rcases formatBits_mem fuel (u / 10) _ c h with h1 | h1
      · rcases List.mem_cons.1 h1 with h2 | h2
        · exact Or.inr ⟨u % 10, Nat.mod_lt _ (by decide), h2⟩
        · exact Or.inl h2
      · exact Or.inr h1

theorem dash_not_mem_FormatUint (u : Nat) : '-' ∉ (FormatUint u).data := by
  intro h
  rcases formatBits_mem (u + 1) u [] '-' h with h1 | ⟨d, hd, h1⟩
  · simp at h1
  · exact digitChar_ne_dash d hd h1.symm

/-- Two sequences cut at the first separator agree piece by piece. -/
theorem append_sep_inj (sep : Char) :
    ∀ (a₁ a₂ b₁ b₂ : List Char), sep ∉ a₁ → sep ∉ a₂ →
      a₁ ++ sep :: b₁ = a₂ ++ sep :: b₂ → a₁ = a₂ ∧ b₁ = b₂
  | [], [], _, _, _, _, h => ⟨rfl, List.tail_eq_of_cons_eq h⟩
  | [], c :: a₂, _, _, _, h2, h => by
    have hc : sep = c := List.head_eq_of_cons_eq h
    exact absurd (hc ▸ List.mem_cons_self _ _) h2
  | c :: a₁, [], _, _, h1, _, h => by
    have hc : c = sep := List.head_eq_of_cons_eq h
    exact absurd (hc ▸ List.mem_cons_self _ _) h1
  | c :: a₁, d :: a₂, b₁, b₂, h1, h2, h => by
    have hcd : c = d := List.head_eq_of_cons_eq h
    have ht : a₁ ++ sep :: b₁ = a₂ ++ sep :: b₂ := List.tail_eq_of_cons_eq h
    obtain ⟨ha, hb⟩ := append_sep_inj sep a₁ a₂ b₁ b₂
      (fun hm => h1 (List.mem_cons_of_mem _ hm)) (fun hm => h2 (List.mem_cons_of_mem _ hm)) ht
    exact ⟨by rw [hcd, ha], hb⟩

theorem key_data (h i o : Nat) :
    (FormatUint h ++ "-" ++ FormatUint i ++ "-" ++ FormatUint o).data =
      (FormatUint h).data ++ '-' :: ((FormatUint i).data ++ '-' :: (FormatUint o).data) := by
  simp [String.data_append]

theorem key_injective (h1 i1 o1 h2 i2 o2 : Nat)
    (hk : FormatUint h1 ++ "-" ++ FormatUint i1 ++ "-" ++ FormatUint o1 =
      FormatUint h2 ++ "-" ++ FormatUint i2 ++ "-" ++ FormatUint o2) :
    h1 = h2 ∧ i1 = i2 ∧ o1 = o2 := by
  have hd := congrArg String.data hk
  rw [key_data, key_data] at hd
  obtain ⟨hh, hrest⟩ := append_sep_inj '-' _ _ _ _ (dash_not_mem_FormatUint h1)
    (dash_not_mem_FormatUint h2) hd
  obtain ⟨hi, ho⟩ := append_sep_inj '-' _ _ _ _ (dash_not_mem_FormatUint i1)
    (dash_not_mem_FormatUint i2) hrest
  exact ⟨FormatUint_injective _ _ (String.ext hh), FormatUint_injective _ _ (String.ext hi),
    FormatUint_injective _ _ (String.ext ho)⟩

theorem splitChars_ne_nil (sep : Char) : ∀ l : List Char, splitChars sep l ≠ []
  | [] => by simp [splitChars]
  | c :: cs => by
    have ih := splitChars_ne_nil sep cs
    by_cases hc : c = sep
    · simp [splitChars, hc]
    · simp only [splitChars, hc, if_false]
      cases hsp : splitChars sep cs with
      | nil => simp
      | cons t ts => simp

/-- No piece of a split contains the separator. -/
theorem splitChars_no_sep (sep : Char) :
    ∀ (l : List Char) (t : List Char), t ∈ splitChars sep l → sep ∉ t
  | [], t, ht => by
    simp only [splitChars, List.mem_singleton] at ht
    subst ht
    simp
  | c :: cs, t, ht => by
    have ih := splitChars_no_sep sep cs
    by_cases hc : c = sep
    · simp only [splitChars, hc, if_true, List.mem_cons] at ht
      rcases ht with ht | ht
      · subst ht; simp
      · exact ih t ht
    · simp only [splitChars, hc, if_false] at ht
      cases hsp : splitChars sep cs with
      | nil => exact absurd hsp (splitChars_ne_nil sep cs)
      | cons t1 ts =>
        rw [hsp] at ht ih
        rcases List.mem_cons.1 ht with ht | ht
        · subst ht
          intro hm
          rcases List.mem_cons.1 hm with hm | hm
          · exact hc hm.symm
          · exact ih t1 (List.mem_cons_self _ _) hm
        · exact ih t (List.mem_cons_of_mem _ ht)

/-- Splitting a piece without separator gives that piece. -/
theorem splitChars_of_not_mem (sep : Char) :
    ∀ t : List Char, sep ∉ t → splitChars sep t = [t]
  | [], _ => rfl
  | c :: cs, h => by
    have hc : c ≠ sep := fun hc => h (hc ▸ List.mem_cons_self _ _)
    have ih := splitChars_of_not_mem sep cs (fun hm => h (List.mem_cons_of_mem _ hm))
    simp only [splitChars, hc, if_false, ih]

/-- Splitting a piece without separator followed by a separator and a rest. -/
theorem splitChars_append_sep (sep : Char) (rest : List Char) :
    ∀ t : List Char, sep ∉ t →
      splitChars sep (t ++ sep :: rest) = t :: splitChars sep rest
  | [], _ => by simp [splitChars]
  | c :: cs, h => by
    have hc : c ≠ sep := fun hc => h (hc ▸ List.mem_cons_self _ _)
    have ih := splitChars_append_sep sep rest cs (fun hm => h (List.mem_cons_of_mem _ hm))
    have e : splitChars sep (c :: (cs ++ sep :: rest)) = (c :: cs) :: splitChars sep rest := by
      simp only [splitChars, hc, if_false, ih]
    exact e

theorem Join_cons_cons_data (x y : String) (rest : List String) :
    (Join (x :: y :: rest) "|").data = x.data ++ '|' :: (Join (y :: rest) "|").data := by
  simp [Join, String.data_append]

/-- Joining and splitting again gives the tokens back, when no token has a separator. -/
theorem Split_Join :
    ∀ l : List String, l ≠ [] → (∀ t ∈ l, '|' ∉ t.data) → Split (Join l "|") '|' = l
  | [], h, _ => absurd rfl h
  | [x], _, hx => by
    have h1 : '|' ∉ x.data := hx x (List.mem_singleton_self x)
    simp [Split, Join, splitChars_of_not_mem '|' x.data h1]
  | x :: y :: rest, _, hx => by
    have h1 : '|' ∉ x.data := hx x (List.mem_cons_self _ _)
    have ih := Split_Join (y :: rest) (List.cons_ne_nil _ _)
      (fun t ht => hx t (List.mem_cons_of_mem _ ht))
    rw [Split] at ih ⊢
    rw [Join_cons_cons_data, splitChars_append_sep '|' _ x.data h1, List.map_cons, ih]

/-- Splitting and joining again gives the text back. -/
theorem Join_splitChars_data :
    ∀ l : List Char, (Join ((splitChars '|' l).map String.mk) "|").data = l
  | [] => rfl
  | c :: cs => by
    have ih := Join_splitChars_data cs
    by_cases hc : c = '|'
    · subst hc
      cases hsp : splitChars '|' cs with
      | nil => exact absurd hsp (splitChars_ne_nil _ cs)
      | cons t ts =>
        rw [hsp] at ih
        simp only [splitChars, if_true, hsp, List.map_cons, Join_cons_cons_data]
        rw [← List.map_cons, ih]
        rfl
    · cases hsp : splitChars '|' cs with
      | nil => exact absurd hsp (splitChars_ne_nil _ cs)
      | cons t ts =>
        rw [hsp] at ih
        simp only [splitChars, hc, if_false, hsp]
        cases ts with
        | nil =>
          simp only [List.map_cons, List.map_nil, Join] at ih ⊢
          rw [← ih]
        | cons t2 ts2 =>
          simp only [List.map_cons, Join_cons_cons_data] at ih ⊢
          rw [← ih]
          rfl

theorem Join_Split (p : String) : Join (Split p '|') "|" = p :=
  String.ext (Join_splitChars_data p.data)

theorem Split_no_sep (p : String) (t : String) (ht : t ∈ Split p '|') : '|' ∉ t.data := by
  rw [Split, List.mem_map] at ht
  obtain ⟨cs, hcs, rfl⟩ := ht
  exact splitChars_no_sep '|' p.data cs hcs

/-- The characters of a joined list: those of the tokens and one separator between
consecutive tokens. -/
theorem Join_data_perm :
    ∀ l : List String, l ≠ [] →
      (Join l "|").data.Perm
        ((l.map String.data).flatten ++ List.replicate (l.length - 1) '|')
  | [], h => absurd rfl h
  | [x], _ => by simp [Join]
  | x :: y :: rest, _ => by
    have ih := Join_data_perm (y :: rest) (List.cons_ne_nil _ _)
    rw [Join_cons_cons_data]
    have h1 : ('|' :: (Join (y :: rest) "|").data).Perm
        (((y :: rest).map String.data).flatten ++
          '|' :: List.replicate ((y :: rest).length - 1) '|') :=
      (ih.cons '|').trans List.perm_middle.symm
    have h2 := h1.append_left x.data
    simpa [List.replicate_succ, List.append_assoc] using h2

theorem Join_data_perm_of_perm (l₁ l₂ : List String) (h₁ : l₁ ≠ []) (hp : l₁.Perm l₂) :
    (Join l₁ "|").data.Perm (Join l₂ "|").data := by
  have h₂ : l₂ ≠ [] := fun h => h₁ (by rw [h] at hp; exact hp.eq_nil)
  have hflat : ((l₁.map String.data).flatten ++ List.replicate (l₁.length - 1) '|').Perm
      ((l₂.map String.data).flatten ++ List.replicate (l₂.length - 1) '|') := by
    rw [hp.length_eq]
    exact (hp.map String.data).flatten.append_right _
  exact ((Join_data_perm l₁ h₁).trans hflat).trans (Join_data_perm l₂ h₂).symm

theorem utf8Len_perm {l₁ l₂ : List Char} (h : l₁.Perm l₂) :
    String.utf8Len l₁ = String.utf8Len l₂ := by
  induction h with
  | nil => rfl
  | cons c _ ih => simp [ih]
  | swap a b l => simp; omega
  | trans _ _ ih1 ih2 => exact ih1.trans ih2

theorem lcgNext_congr (s1 s2 : Nat) (h : s1 % 2 ^ 32 = s2 % 2 ^ 32) :
    lcgNext s1 = lcgNext s2 := by
  rw [lcgNext_eq_specNext, lcgNext_eq_specNext, specNext, specNext]
  have h1 : s1 ≡ s2 [MOD 2 ^ 32] := h
  exact (h1.mul_left 1664525).add_right 1013904223

/-- The loop reads its starting state only through the first generator step. -/
theorem shuffleLoop_congr (r : List String) (s1 s2 : Nat) (h : lcgNext s1 = lcgNext s2) :
    ∀ i, shuffleLoop r s1 i = shuffleLoop r s2 i
  | 0 => rfl
  | i + 1 => by simp only [shuffleLoop, h]

theorem shuffleWithSeed_congr (items : List String) (s1 s2 : Nat)
    (h : s1 % 2 ^ 32 = s2 % 2 ^ 32) : shuffleWithSeed items s1 = shuffleWithSeed items s2 :=
  shuffleLoop_congr items s1 s2 (lcgNext_congr s1 s2 h) _

/-- Every output of the shuffle is the output for a seed below `2 ^ 32`. -/
theorem shuffleWithSeed_mem_image (items : List String) (seed : Nat) :
    shuffleWithSeed items seed ∈
      (Finset.range (2 ^ 32)).image (shuffleWithSeed items) := by
  rw [Finset.mem_image]
  exact ⟨seed % 2 ^ 32, Finset.mem_range.2 (Nat.mod_lt _ (by decide)),
    shuffleWithSeed_congr items _ _ (Nat.mod_mod _ _)⟩

theorem card_outputs_le (items : List String) :
    ((Finset.range (2 ^ 32)).image (shuffleWithSeed items)).card ≤ 2 ^ 32 := by
  have h := Finset.card_image_le (s := Finset.range (2 ^ 32)) (f := shuffleWithSeed items)
  rwa [Finset.card_range] at h

theorem two_pow_lt_factorial : 2 ^ 32 < Nat.factorial 13 := by
  norm_num [Nat.factorial]

/-! ## Claims -/

/-- C1: for every list of strings (empty and repeated items included) and every seed,
`shuffleWithSeed` returns, and what it returns is a permutation of the input: the same
length and the same number of occurrences of every string. -/
theorem shuffleWithSeed_is_permutation (items : List String) (seed : Nat) :
    ∃ r, shuffleWithSeed items seed = some r ∧ r.Perm items ∧
      r.length = items.length ∧ ∀ x, r.count x = items.count x := by
  obtain ⟨r, hr, hp⟩ := shuffleWithSeed_perm items seed
  exact ⟨r, hr, hp, hp.length_eq, fun x => hp.count_eq x⟩

/-- C2: `generateSeed` is defined on every triple and its value is
`(blockHeight*1000003 + index*1009 + opIndex) mod 2^64`, the sum being computed over
the natural numbers. -/
theorem generateSeed_formula (blockHeight index opIndex : Nat) :
    generateSeed blockHeight index opIndex =
      (blockHeight * 1000003 + index * 1009 + opIndex) % 2 ^ 64 :=
  generateSeed_eq blockHeight index opIndex

/-- C10: on a one-element list and on the empty list `shuffleWithSeed` returns its
input, whatever the seed. -/
theorem shuffleWithSeed_trivial (seed : Nat) (x : String) :
    shuffleWithSeed [x] seed = some [x] ∧ shuffleWithSeed [] seed = some [] :=
  ⟨rfl, rfl⟩

/-- C3: for a payload that contains a `|`, `Flip` returns `K ++ " -> " ++ R`, where `K`
is the three decimal numerals of the chain position joined by `-` and `R` is the
result of `shuffleWithSeed` on the split payload with the seed of `generateSeed`,
joined by `|`; and the scenario payload at position (12345678, 0, 0) returns
`"12345678-0-0 -> tibfox|ph1102|meno|stevenson7"`. -/
theorem Flip_return_value (payload : String) (env : Env) (h : Host)
    (hp : '|' ∈ payload.data) :
    (∃ shuffled,
        shuffleWithSeed (Split payload '|')
          (generateSeed env.BlockHeight env.Index env.OpIndex) = some shuffled ∧
        (Flip (some payload) env h).1 =
          Outcome.returned
            ((FormatUint env.BlockHeight ++ "-" ++ FormatUint env.Index ++ "-" ++
                FormatUint env.OpIndex) ++ " -> " ++ Join shuffled "|")) ∧
      (Flip (some "tibfox|stevenson7|meno|ph1102")
          { Sender := env.Sender, BlockHeight := 12345678, Index := 0, OpIndex := 0 } h).1 =
        Outcome.returned "12345678-0-0 -> tibfox|ph1102|meno|stevenson7" := by
  refine ⟨?_, ?_⟩
  swap
  · have hs : shuffleWithSeed (Split "tibfox|stevenson7|meno|ph1102" '|')
        (generateSeed 12345678 0 0) = some ["tibfox", "ph1102", "meno", "stevenson7"] := by
      decide
    have hk : FormatUint 12345678 ++ "-" ++ FormatUint 0 ++ "-" ++ FormatUint 0 ++ " -> " ++
        Join ["tibfox", "ph1102", "meno", "stevenson7"] "|" =
        "12345678-0-0 -> tibfox|ph1102|meno|stevenson7" := by decide
    rw [Flip_fst_of_shuffle "tibfox|stevenson7|meno|ph1102"
      { Sender := env.Sender, BlockHeight := 12345678, Index := 0, OpIndex := 0 } h
      ["tibfox", "ph1102", "meno", "stevenson7"] (by decide) hs]
    exact congrArg Outcome.returned hk
  rcases Flip_cases (some payload) env h with ⟨_, _⟩ | ⟨p, hp1, _, hn, _⟩ |
    ⟨p, shuffled, hp1, _, _, hs, _, hF⟩
  · rename_i h1 _
    rcases h1 with h1 | h1
    · cases h1
    · cases h1; simp at hp
  · cases hp1; exact absurd hp hn
  · cases hp1
    exact ⟨shuffled, hs, by rw [hF]; rfl⟩

theorem Flip_return_value_witness :
    '|' ∈ "a|b".data ∧
    ((∃ shuffled,
        shuffleWithSeed (Split "a|b" '|')
          (generateSeed scenarioEnv.BlockHeight scenarioEnv.Index scenarioEnv.OpIndex) =
            some shuffled ∧
        (Flip (some "a|b") scenarioEnv emptyHost).1 =
          Outcome.returned
            ((FormatUint scenarioEnv.BlockHeight ++ "-" ++ FormatUint scenarioEnv.Index ++
                "-" ++ FormatUint scenarioEnv.OpIndex) ++ " -> " ++ Join shuffled "|")) ∧
      (Flip (some "tibfox|stevenson7|meno|ph1102")
          { Sender := scenarioEnv.Sender, BlockHeight := 12345678, Index := 0,
            OpIndex := 0 } emptyHost).1 =
        Outcome.returned "12345678-0-0 -> tibfox|ph1102|meno|stevenson7") :=
  ⟨by decide, Flip_return_value "a|b" scenarioEnv emptyHost (by decide)⟩

/-- C4: a successful call of `Flip` makes exactly one state write: its key is the
three decimal numerals of the chain position joined by `-`, its value is the shuffled
tokens joined by `|` and nothing else, and every other key keeps its value. -/
theorem Flip_state_write (payload : Option String) (env : Env) (h : Host)
    (value : String) (hs : (Flip payload env h).1 = Outcome.returned value) :
    ∃ p shuffled, payload = some p ∧
      shuffleWithSeed (Split p '|')
        (generateSeed env.BlockHeight env.Index env.OpIndex) = some shuffled ∧
      stateWrites (Flip payload env h).2.calls =
        stateWrites h.calls ++
          [(FormatUint env.BlockHeight ++ "-" ++ FormatUint env.Index ++ "-" ++
              FormatUint env.OpIndex, Join shuffled "|")] ∧
      (Flip payload env h).2.state
          (FormatUint env.BlockHeight ++ "-" ++ FormatUint env.Index ++ "-" ++
            FormatUint env.OpIndex) = some (Join shuffled "|") ∧
      ∀ k, k ≠ FormatUint env.BlockHeight ++ "-" ++ FormatUint env.Index ++ "-" ++
            FormatUint env.OpIndex →
        (Flip payload env h).2.state k = h.state k := by
  rcases Flip_cases payload env h with ⟨_, hF⟩ | ⟨p, _, _, _, hF⟩ |
    ⟨p, shuffled, hp1, _, _, hsh, _, hF⟩
  · rw [hF] at hs; cases hs
  · rw [hF] at hs; cases hs
  · refine ⟨p, shuffled, hp1, hsh, ?_, ?_, ?_⟩
    · rw [hF]; exact stateWrites_committed env _ h
    · rw [hF]
      show (committed env (Join shuffled "|") h).state (storageKey env) = _
      rw [state_committed, if_pos rfl]
    · intro k hk
      have hk1 : k ≠ storageKey env := hk
      rw [hF]
      show (committed env (Join shuffled "|") h).state k = _
      rw [state_committed, if_neg hk1]

theorem Flip_state_write_witness :
    (Flip (some "a|b|c") scenarioEnv emptyHost).1 = Outcome.returned "12345678-0-0 -> c|a|b" ∧
    ∃ p shuffled, some "a|b|c" = some p ∧
      shuffleWithSeed (Split p '|')
        (generateSeed scenarioEnv.BlockHeight scenarioEnv.Index scenarioEnv.OpIndex) =
          some shuffled ∧
      stateWrites (Flip (some "a|b|c") scenarioEnv emptyHost).2.calls =
        stateWrites emptyHost.calls ++
          [(FormatUint scenarioEnv.BlockHeight ++ "-" ++ FormatUint scenarioEnv.Index ++
              "-" ++ FormatUint scenarioEnv.OpIndex, Join shuffled "|")] ∧
      (Flip (some "a|b|c") scenarioEnv emptyHost).2.state
          (FormatUint scenarioEnv.BlockHeight ++ "-" ++ FormatUint scenarioEnv.Index ++
            "-" ++ FormatUint scenarioEnv.OpIndex) = some (Join shuffled "|") ∧
      ∀ k, k ≠ FormatUint scenarioEnv.BlockHeight ++ "-" ++
            FormatUint scenarioEnv.Index ++ "-" ++ FormatUint scenarioEnv.OpIndex →
        (Flip (some "a|b|c") scenarioEnv emptyHost).2.state k = emptyHost.state k :=
  ⟨by decide,
    Flip_state_write (some "a|b|c") scenarioEnv emptyHost "12345678-0-0 -> c|a|b" (by decide)⟩

/-- C5: a successful call of `Flip` emits exactly one log line, and that line is
`"flip;sender:" ++ sender ++ ";result:" ++ R`, where `R` is the string that follows
the storage key and `" -> "` in the returned value. -/
theorem Flip_log_line (payload : Option String) (env : Env) (h : Host)
    (value : String) (hs : (Flip payload env h).1 = Outcome.returned value) :
    (∃ R, value =
        (FormatUint env.BlockHeight ++ "-" ++ FormatUint env.Index ++ "-" ++
          FormatUint env.OpIndex) ++ " -> " ++ R) ∧
      ∀ R, value =
          (FormatUint env.BlockHeight ++ "-" ++ FormatUint env.Index ++ "-" ++
            FormatUint env.OpIndex) ++ " -> " ++ R →
        logLines (Flip payload env h).2.calls =
          logLines h.calls ++ ["flip;sender:" ++ env.Sender ++ ";result:" ++ R] := by
  rcases Flip_cases payload env h with ⟨_, hF⟩ | ⟨p, _, _, _, hF⟩ |
    ⟨p, shuffled, _, _, _, _, _, hF⟩
  · rw [hF] at hs; cases hs
  · rw [hF] at hs; cases hs
  · rw [hF] at hs
    have hv : value = storageKey env ++ " -> " ++ Join shuffled "|" :=
      (Outcome.returned.inj hs).symm
    refine ⟨⟨Join shuffled "|", hv⟩, ?_⟩
    intro R hR
    have hR1 : storageKey env ++ " -> " ++ Join shuffled "|" =
        storageKey env ++ " -> " ++ R := hv.symm.trans hR
    have hR2 : Join shuffled "|" = R := string_append_left_cancel _ _ _ hR1
    rw [hF, ← hR2]
    exact logLines_committed env _ h

theorem Flip_log_line_witness :
    (Flip (some "a|b|c") scenarioEnv emptyHost).1 = Outcome.returned "12345678-0-0 -> c|a|b" ∧
    ((∃ R, "12345678-0-0 -> c|a|b" =
        (FormatUint scenarioEnv.BlockHeight ++ "-" ++ FormatUint scenarioEnv.Index ++ "-" ++
          FormatUint scenarioEnv.OpIndex) ++ " -> " ++ R) ∧
      ∀ R, "12345678-0-0 -> c|a|b" =
          (FormatUint scenarioEnv.BlockHeight ++ "-" ++ FormatUint scenarioEnv.Index ++
            "-" ++ FormatUint scenarioEnv.OpIndex) ++ " -> " ++ R →
        logLines (Flip (some "a|b|c") scenarioEnv emptyHost).2.calls =
          logLines emptyHost.calls ++
            ["flip;sender:" ++ scenarioEnv.Sender ++ ";result:" ++ R]) :=
  ⟨by decide,
    Flip_log_line (some "a|b|c") scenarioEnv emptyHost "12345678-0-0 -> c|a|b" (by decide)⟩

/-- C6: `Flip` aborts with the message "payload is required" exactly when the payload
is null or the empty string. -/
theorem Flip_payload_required (payload : Option String) (env : Env) (h : Host) :
    (Flip payload env h).1 = Outcome.aborted "payload is required" ↔
      (payload = none ∨ payload = some "") := by
  rcases Flip_cases payload env h with ⟨hp, hF⟩ | ⟨p, hp1, hne, _, hF⟩ |
    ⟨p, shuffled, hp1, hne, _, _, _, hF⟩
  · rw [hF]; exact ⟨fun _ => hp, fun _ => rfl⟩
  · rw [hF]
    constructor
    · intro hc
      exact absurd (Outcome.aborted.inj hc) (by decide)
    · rintro (hc | hc)
      · rw [hc] at hp1; cases hp1
      · rw [hc] at hp1; exact absurd (Option.some.inj hp1).symm hne
  · rw [hF]
    constructor
    · intro hc; cases hc
    · rintro (hc | hc)
      · rw [hc] at hp1; cases hp1
      · rw [hc] at hp1; exact absurd (Option.some.inj hp1).symm hne

/-- C7: for a non-empty payload, `Flip` aborts with "at least 2 possibilities are
required" when the payload has no `|`, and returns a string when it has one; so
`"only-one-token"` aborts, and `"a|b"`, the four-token scenario payload, `"|"` and
`"a|"` succeed. -/
theorem Flip_two_possibilities (payload : String) (env : Env) (h : Host)
    (hne : payload ≠ "") :
    ('|' ∉ payload.data →
        (Flip (some payload) env h).1 =
          Outcome.aborted "at least 2 possibilities are required") ∧
      ('|' ∈ payload.data → ∃ v, (Flip (some payload) env h).1 = Outcome.returned v) ∧
      (Flip (some "only-one-token") env h).1 =
        Outcome.aborted "at least 2 possibilities are required" ∧
      (∃ v, (Flip (some "a|b") env h).1 = Outcome.returned v) ∧
      (∃ v, (Flip (some "tibfox|stevenson7|meno|ph1102") env h).1 = Outcome.returned v) ∧
      (∃ v, (Flip (some "|") env h).1 = Outcome.returned v) ∧
      (∃ v, (Flip (some "a|") env h).1 = Outcome.returned v) := by
  have hret : ∀ p : String, '|' ∈ p.data →
      ∃ v, (Flip (some p) env h).1 = Outcome.returned v := by
    intro p hp
    obtain ⟨shuffled, hsh, _⟩ := shuffleWithSeed_perm (Split p '|')
      (generateSeed env.BlockHeight env.Index env.OpIndex)
    exact ⟨_, Flip_fst_of_shuffle p env h shuffled hp hsh⟩
  refine ⟨fun hp => ?_, hret payload, ?_, hret _ (by decide), hret _ (by decide),
    hret _ (by decide), hret _ (by decide)⟩
  · rw [Flip_of_no_sep payload env h hne hp]
  · rw [Flip_of_no_sep "only-one-token" env h (by decide) (by decide)]

theorem Flip_two_possibilities_witness :
    "only-one-token" ≠ "" ∧
    (('|' ∉ "only-one-token".data →
        (Flip (some "only-one-token") scenarioEnv emptyHost).1 =
          Outcome.aborted "at least 2 possibilities are required") ∧
      ('|' ∈ "only-one-token".data →
        ∃ v, (Flip (some "only-one-token") scenarioEnv emptyHost).1 = Outcome.returned v) ∧
      (Flip (some "only-one-token") scenarioEnv emptyHost).1 =
        Outcome.aborted "at least 2 possibilities are required" ∧
      (∃ v, (Flip (some "a|b") scenarioEnv emptyHost).1 = Outcome.returned v) ∧
      (∃ v, (Flip (some "tibfox|stevenson7|meno|ph1102") scenarioEnv emptyHost).1 =
        Outcome.returned v) ∧
      (∃ v, (Flip (some "|") scenarioEnv emptyHost).1 = Outcome.returned v) ∧
      (∃ v, (Flip (some "a|") scenarioEnv emptyHost).1 = Outcome.returned v)) :=
  ⟨by decide, Flip_two_possibilities "only-one-token" scenarioEnv emptyHost (by decide)⟩

/-- C8: when `Flip` aborts, the payload was null, empty or had fewer than two tokens,
the host is exactly as before (same persistent state, no state write and no log line
added to the journal), and no value is returned. -/
theorem Flip_abort_no_effect (payload : Option String) (env : Env) (h : Host)
    (msg : String) (ha : (Flip payload env h).1 = Outcome.aborted msg) :
    (payload = none ∨ payload = some "" ∨
        ∃ p, payload = some p ∧ (Split p '|').length < 2) ∧
      (Flip payload env h).2 = h ∧
      (Flip payload env h).2.state = h.state ∧
      stateWrites (Flip payload env h).2.calls = stateWrites h.calls ∧
      logLines (Flip payload env h).2.calls = logLines h.calls ∧
      ∀ v, (Flip payload env h).1 ≠ Outcome.returned v := by
  have hno : ∀ v, (Flip payload env h).1 ≠ Outcome.returned v := by
    intro v hv
    rw [ha] at hv
    cases hv
  rcases Flip_cases payload env h with ⟨hp, hF⟩ | ⟨p, hp1, _, hn, hF⟩ |
    ⟨p, shuffled, _, _, _, _, _, hF⟩
  · refine ⟨?_, ?_, ?_, ?_, ?_, hno⟩
    · rcases hp with hp | hp
      · exact Or.inl hp
      · exact Or.inr (Or.inl hp)
    all_goals rw [hF]
  · refine ⟨Or.inr (Or.inr ⟨p, hp1, (Split_length_lt_two p).2 hn⟩), ?_, ?_, ?_, ?_, hno⟩
    all_goals rw [hF]
  · rw [hF] at ha; cases ha

theorem Flip_abort_no_effect_witness :
    (Flip (some "only-one-token") scenarioEnv emptyHost).1 =
      Outcome.aborted "at least 2 possibilities are required" ∧
    ((some "only-one-token" = none ∨ some "only-one-token" = some "" ∨
        ∃ p, some "only-one-token" = some p ∧ (Split p '|').length < 2) ∧
      (Flip (some "only-one-token") scenarioEnv emptyHost).2 = emptyHost ∧
      (Flip (some "only-one-token") scenarioEnv emptyHost).2.state = emptyHost.state ∧
      stateWrites (Flip (some "only-one-token") scenarioEnv emptyHost).2.calls =
        stateWrites emptyHost.calls ∧
      logLines (Flip (some "only-one-token") scenarioEnv emptyHost).2.calls =
        logLines emptyHost.calls ∧
      ∀ v, (Flip (some "only-one-token") scenarioEnv emptyHost).1 ≠ Outcome.returned v) :=
  ⟨by decide,
    Flip_abort_no_effect (some "only-one-token") scenarioEnv emptyHost
      "at least 2 possibilities are required" (by decide)⟩

/-- C9: two environments with the same `BlockHeight`, `Index` and `OpIndex` give the
same outcome of `Flip` on the same payload (the same abort message or the same
returned string), whatever the hosts, and from the same host the same persistent
state and the same state writes: the sender only reaches the log line. -/
theorem Flip_deterministic (payload : Option String) (e1 e2 : Env) (h1 h2 h : Host)
    (hB : e1.BlockHeight = e2.BlockHeight) (hI : e1.Index = e2.Index)
    (hO : e1.OpIndex = e2.OpIndex) :
    (Flip payload e1 h1).1 = (Flip payload e2 h2).1 ∧
      (Flip payload e1 h).2.state = (Flip payload e2 h).2.state ∧
      stateWrites (Flip payload e1 h).2.calls =
        stateWrites (Flip payload e2 h).2.calls := by
  have hk : storageKey e1 = storageKey e2 := by
    simp only [storageKey, hB, hI, hO]
  cases payload with
  | none => exact ⟨rfl, rfl, rfl⟩
  | some p =>
    by_cases hne : p = ""
    · subst hne
      exact ⟨rfl, rfl, rfl⟩
    · by_cases hm : '|' ∈ p.data
      · obtain ⟨shuffled, hsh, _⟩ := shuffleWithSeed_perm (Split p '|')
          (generateSeed e1.BlockHeight e1.Index e1.OpIndex)
        have hsh2 : shuffleWithSeed (Split p '|')
            (generateSeed e2.BlockHeight e2.Index e2.OpIndex) = some shuffled := by
          rw [← hB, ← hI, ← hO]; exact hsh
        rw [Flip_of_shuffle p e1 h1 shuffled hm hsh, Flip_of_shuffle p e2 h2 shuffled hm hsh2,
          Flip_of_shuffle p e1 h shuffled hm hsh, Flip_of_shuffle p e2 h shuffled hm hsh2]
        refine ⟨by rw [hk], ?_, ?_⟩
        · funext k
          show (committed e1 _ h).state k = (committed e2 _ h).state k
          rw [state_committed, state_committed, hk]
        · show stateWrites (committed e1 _ h).calls = stateWrites (committed e2 _ h).calls
          rw [stateWrites_committed, stateWrites_committed, hk]
      · rw [Flip_of_no_sep p e1 h1 hne hm, Flip_of_no_sep p e2 h2 hne hm,
          Flip_of_no_sep p e1 h hne hm, Flip_of_no_sep p e2 h hne hm]
        exact ⟨rfl, rfl, rfl⟩

theorem Flip_deterministic_witness :
    scenarioEnv.BlockHeight = otherSenderEnv.BlockHeight ∧
    scenarioEnv.Index = otherSenderEnv.Index ∧
    scenarioEnv.OpIndex = otherSenderEnv.OpIndex ∧
    ((Flip (some "a|b") scenarioEnv emptyHost).1 =
        (Flip (some "a|b") otherSenderEnv emptyHost).1 ∧
      (Flip (some "a|b") scenarioEnv emptyHost).2.state =
        (Flip (some "a|b") otherSenderEnv emptyHost).2.state ∧
      stateWrites (Flip (some "a|b") scenarioEnv emptyHost).2.calls =
        stateWrites (Flip (some "a|b") otherSenderEnv emptyHost).2.calls) :=
  ⟨rfl, rfl, rfl,
    Flip_deterministic (some "a|b") scenarioEnv otherSenderEnv emptyHost emptyHost emptyHost
      rfl rfl rfl⟩

/-- C11 (as stated, refuted): the seed of the end-to-end scenario is not
12345715185234. -/
theorem scenario_seed_ne_stated : generateSeed 12345678 0 0 ≠ 12345715185234 := by
  decide

/-- C11 (amended): in the end-to-end scenario the derived seed is
`12345678*1000003 + 0*1009 + 0 = 12345715037034`. -/
theorem scenario_seed_value :
    generateSeed 12345678 0 0 = 12345678 * 1000003 + 0 * 1009 + 0 ∧
      12345678 * 1000003 + 0 * 1009 + 0 = 12345715037034 ∧
      generateSeed 12345678 0 0 = 12345715037034 := by
  decide

/-- C12 (as stated, refuted): in the end-to-end scenario the string returned is
`"12345678-0-0 -> tibfox|ph1102|meno|stevenson7"`, while the one state write stores
`"tibfox|ph1102|meno|stevenson7"` under `"12345678-0-0"`, which is a different
string. -/
theorem scenario_stored_ne_returned :
    (Flip (some "tibfox|stevenson7|meno|ph1102") scenarioEnv emptyHost).1 =
        Outcome.returned "12345678-0-0 -> tibfox|ph1102|meno|stevenson7" ∧
      stateWrites (Flip (some "tibfox|stevenson7|meno|ph1102") scenarioEnv emptyHost).2.calls =
        [("12345678-0-0", "tibfox|ph1102|meno|stevenson7")] ∧
      (Flip (some "tibfox|stevenson7|meno|ph1102") scenarioEnv emptyHost).2.state
          "12345678-0-0" ≠ some "12345678-0-0 -> tibfox|ph1102|meno|stevenson7" := by
  decide

/-- C12 (amended): on every successful call the value written to the persistent state
is the joined permutation `R` alone and the returned string is
`storageKey ++ " -> " ++ R`, so the two always differ; in the end-to-end scenario the
stored value is `"tibfox|ph1102|meno|stevenson7"` and the returned string is
`"12345678-0-0 -> tibfox|ph1102|meno|stevenson7"`. -/
theorem Flip_stored_and_returned (payload : Option String) (env : Env) (h : Host)
    (value : String) (hs : (Flip payload env h).1 = Outcome.returned value) :
    (∃ R, stateWrites (Flip payload env h).2.calls =
          stateWrites h.calls ++ [(storageKey env, R)] ∧
        (Flip payload env h).2.state (storageKey env) = some R ∧
        value = storageKey env ++ " -> " ++ R ∧
        R ≠ value) ∧
      (Flip (some "tibfox|stevenson7|meno|ph1102") scenarioEnv emptyHost).1 =
        Outcome.returned "12345678-0-0 -> tibfox|ph1102|meno|stevenson7" ∧
      (Flip (some "tibfox|stevenson7|meno|ph1102") scenarioEnv emptyHost).2.state
          "12345678-0-0" = some "tibfox|ph1102|meno|stevenson7" := by
  refine ⟨?_, by decide, by decide⟩
  rcases Flip_cases payload env h with ⟨_, hF⟩ | ⟨p, _, _, _, hF⟩ |
    ⟨p, shuffled, _, _, _, _, _, hF⟩
  · rw [hF] at hs; cases hs
  · rw [hF] at hs; cases hs
  · rw [hF] at hs
    have hv : value = storageKey env ++ " -> " ++ Join shuffled "|" :=
      (Outcome.returned.inj hs).symm
    refine ⟨Join shuffled "|", ?_, ?_, hv, ?_⟩
    · rw [hF]; exact stateWrites_committed env _ h
    · rw [hF]
      show (committed env (Join shuffled "|") h).state (storageKey env) = _
      rw [state_committed, if_pos rfl]
    · rw [hv]
      apply string_length_append_lt
      rw [String.length_append]
      have : 0 < (" -> " : String).length := by decide
      omega

theorem Flip_stored_and_returned_witness :
    (Flip (some "a|b|c") scenarioEnv emptyHost).1 = Outcome.returned "12345678-0-0 -> c|a|b" ∧
    ((∃ R, stateWrites (Flip (some "a|b|c") scenarioEnv emptyHost).2.calls =
          stateWrites emptyHost.calls ++ [(storageKey scenarioEnv, R)] ∧
        (Flip (some "a|b|c") scenarioEnv emptyHost).2.state (storageKey scenarioEnv) =
          some R ∧
        "12345678-0-0 -> c|a|b" = storageKey scenarioEnv ++ " -> " ++ R ∧
        R ≠ "12345678-0-0 -> c|a|b") ∧
      (Flip (some "tibfox|stevenson7|meno|ph1102") scenarioEnv emptyHost).1 =
        Outcome.returned "12345678-0-0 -> tibfox|ph1102|meno|stevenson7" ∧
      (Flip (some "tibfox|stevenson7|meno|ph1102") scenarioEnv emptyHost).2.state
          "12345678-0-0" = some "tibfox|ph1102|meno|stevenson7") :=
  ⟨by decide,
    Flip_stored_and_returned (some "a|b|c") scenarioEnv emptyHost "12345678-0-0 -> c|a|b"
      (by decide)⟩

/-- C13 (the code at the failing input): for sender `"hive:flipuser"` at position
(12345678, 0, 0) the one state write of `Flip` has the key `"12345678-0-0"`, nothing is
stored under `"hive:flipuser:12345678-0-0"`, and the returned string is
`"12345678-0-0 -> tibfox|ph1102|meno|stevenson7"`: the sender is not part of the key. -/
theorem scenario_key_without_sender :
    scenarioEnv.Sender = "hive:flipuser" ∧
      stateWrites (Flip (some "tibfox|stevenson7|meno|ph1102") scenarioEnv emptyHost).2.calls =
        [("12345678-0-0", "tibfox|ph1102|meno|stevenson7")] ∧
      (Flip (some "tibfox|stevenson7|meno|ph1102") scenarioEnv emptyHost).2.state
          "hive:flipuser:12345678-0-0" = none ∧
      (Flip (some "tibfox|stevenson7|meno|ph1102") scenarioEnv emptyHost).1 =
        Outcome.returned "12345678-0-0 -> tibfox|ph1102|meno|stevenson7" ∧
      (Flip (some "tibfox|stevenson7|meno|ph1102") scenarioEnv emptyHost).1 ≠
        Outcome.returned "hive:flipuser:12345678-0-0 -> tibfox|ph1102|meno|stevenson7" := by
  decide

/-- C14 (as stated, refuted): the positions (0, 1, 0) and (0, 0, 1009) differ and have
the same seed. -/
theorem generateSeed_collision :
    ((0, 1, 0) : Nat × Nat × Nat) ≠ (0, 0, 1009) ∧
      generateSeed 0 1 0 = generateSeed 0 0 1009 := by
  decide

/-- C14 (amended): two positions of unsigned 64-bit components that differ in exactly
one component have different seeds. -/
theorem generateSeed_ne_of_one_component (h1 i1 o1 h2 i2 o2 : Nat)
    (hh1 : h1 < 2 ^ 64) (hi1 : i1 < 2 ^ 64) (ho1 : o1 < 2 ^ 64)
    (hh2 : h2 < 2 ^ 64) (hi2 : i2 < 2 ^ 64) (ho2 : o2 < 2 ^ 64)
    (hd : (h1 ≠ h2 ∧ i1 = i2 ∧ o1 = o2) ∨ (h1 = h2 ∧ i1 ≠ i2 ∧ o1 = o2) ∨
      (h1 = h2 ∧ i1 = i2 ∧ o1 ≠ o2)) :
    generateSeed h1 i1 o1 ≠ generateSeed h2 i2 o2 := by
  intro he
  rw [generateSeed_eq, generateSeed_eq] at he
  rcases hd with ⟨hne, rfl, rfl⟩ | ⟨rfl, hne, rfl⟩ | ⟨rfl, rfl, hne⟩
  · have e1 : h1 * 1000003 + (i1 * 1009 + o1) ≡
        h2 * 1000003 + (i1 * 1009 + o1) [MOD 2 ^ 64] := by
      rw [← Nat.add_assoc, ← Nat.add_assoc]; exact he
    exact hne (odd_mul_cancel 1000003 h1 h2 (by norm_num) hh1 hh2
      (Nat.ModEq.add_right_cancel' _ e1))
  · have e1 : h1 * 1000003 + i1 * 1009 ≡ h1 * 1000003 + i2 * 1009 [MOD 2 ^ 64] :=
      Nat.ModEq.add_right_cancel' o1 he
    exact hne (odd_mul_cancel 1009 i1 i2 (by norm_num) hi1 hi2
      (Nat.ModEq.add_left_cancel' _ e1))
  · have e1 : o1 ≡ o2 [MOD 2 ^ 64] := Nat.ModEq.add_left_cancel' _ he
    exact hne (e1.eq_of_lt_of_lt ho1 ho2)

theorem generateSeed_ne_of_one_component_witness :
    (12345678 < 2 ^ 64 ∧ 0 < 2 ^ 64 ∧ 1 < 2 ^ 64) ∧
      generateSeed 12345678 0 0 ≠ generateSeed 12345678 1 0 :=
  ⟨by decide,
    generateSeed_ne_of_one_component 12345678 0 0 12345678 1 0 (by decide) (by decide)
      (by decide) (by decide) (by decide) (by decide)
      (Or.inr (Or.inl ⟨rfl, by decide, rfl⟩))⟩

/-- C15: `shuffleWithSeed` returns exactly what the reference seeded Fisher-Yates of
the specification returns in exact integer arithmetic; the wrapping `uint64` step of
the code equals `(1664525*state + 1013904223) mod 2^32` for every state, also when
the product overflows 64 bits (as at `state = 2^63`), and every state after a step
is below `2^32`. -/
theorem shuffleWithSeed_refines_spec (items : List String) (seed : Nat) :
    shuffleWithSeed items seed = some (specShuffle items seed) ∧
      (∀ state, lcgNext state = (1664525 * state + 1013904223) % 2 ^ 32) ∧
      (2 ^ 64 ≤ 1664525 * 2 ^ 63 + 1013904223 ∧
        lcgNext (2 ^ 63) = (1664525 * 2 ^ 63 + 1013904223) % 2 ^ 32) ∧
      ∀ state, lcgNext state < 2 ^ 32 := by
  refine ⟨?_, lcgNext_eq_specNext, ⟨by decide, lcgNext_eq_specNext _⟩, lcgNext_lt⟩
  rw [shuffleWithSeed, specShuffle, specIndices]
  apply shuffleLoop_eq_spec
  cases items with
  | nil => exact Or.inl rfl
  | cons a t => exact Or.inr (by simp)

/-- C16: for every list and every seed `shuffleWithSeed` returns (no panic); the loop
executes all its `len - 1` iterations, and in each of them the divisor is `i + 1`, at
least 2, and the computed index satisfies `j ≤ i < len(items)`. -/
theorem shuffleWithSeed_safe (items : List String) (seed : Nat) :
    (∃ r, shuffleWithSeed items seed = some r) ∧
      (shuffleTrace items seed (items.length - 1)).length = items.length - 1 ∧
      ∀ t ∈ shuffleTrace items seed (items.length - 1),
        t.divisor = t.i + 1 ∧ 2 ≤ t.divisor ∧ 0 ≤ t.j ∧ t.j ≤ t.i ∧ t.i < t.len ∧
          t.len = items.length := by
  have hstart : items.length - 1 = 0 ∨ items.length - 1 < items.length := by
    cases items with
    | nil => exact Or.inl rfl
    | cons a t => exact Or.inr (by simp)
  obtain ⟨hlen, hall⟩ := shuffleTrace_safe (items.length - 1) items seed hstart
  refine ⟨⟨specShuffle items seed, ?_⟩, hlen, ?_⟩
  · rw [shuffleWithSeed, specShuffle, specIndices]
    exact shuffleLoop_eq_spec _ items seed hstart
  · intro t ht
    obtain ⟨h1, h2, h3, h4, h5⟩ := hall t ht
    exact ⟨h1, h2, Nat.zero_le _, h3, h4, h5⟩

/-- C17: the storage key determines the chain position: two keys
`decimal(h) ++ "-" ++ decimal(i) ++ "-" ++ decimal(o)` are equal exactly when the
triples are equal, so positions that differ in a component have different keys. -/
theorem storageKey_injective (e1 e2 : Env) :
    (storageKey e1 = storageKey e2 ↔
        (e1.BlockHeight = e2.BlockHeight ∧ e1.Index = e2.Index ∧
          e1.OpIndex = e2.OpIndex)) ∧
      (FormatUint e1.BlockHeight ++ "-" ++ FormatUint e1.Index ++ "-" ++
            FormatUint e1.OpIndex =
          FormatUint e2.BlockHeight ++ "-" ++ FormatUint e2.Index ++ "-" ++
            FormatUint e2.OpIndex ↔
        (e1.BlockHeight, e1.Index, e1.OpIndex) =
          (e2.BlockHeight, e2.Index, e2.OpIndex)) := by
  constructor
  · constructor
    · exact key_injective _ _ _ _ _ _
    · rintro ⟨hh, hi, ho⟩
      simp only [storageKey, hh, hi, ho]
  · constructor
    · intro hk
      obtain ⟨hh, hi, ho⟩ := key_injective _ _ _ _ _ _ hk
      rw [hh, hi, ho]
    · intro ht
      obtain ⟨hh, hi, ho⟩ : e1.BlockHeight = e2.BlockHeight ∧ e1.Index = e2.Index ∧
          e1.OpIndex = e2.OpIndex := by
        simpa using ht
      rw [hh, hi, ho]

/-- C18: on every successful call the stored value (which is also what follows
`" -> "` in the returned string) splits on `|` into exactly the shuffled token list;
that list has as many tokens as the split payload and is a permutation of it (every
token with the same multiplicity), and the stored value has the same length as the
payload, in characters and in bytes. -/
theorem Flip_result_tokens (payload : Option String) (env : Env) (h : Host)
    (value : String) (hs : (Flip payload env h).1 = Outcome.returned value) :
    ∃ p shuffled stored, payload = some p ∧
      shuffleWithSeed (Split p '|')
        (generateSeed env.BlockHeight env.Index env.OpIndex) = some shuffled ∧
      (Flip payload env h).2.state (storageKey env) = some stored ∧
      value = storageKey env ++ " -> " ++ stored ∧
      Split stored '|' = shuffled ∧
      (Split stored '|').length = (Split p '|').length ∧
      (Split stored '|').Perm (Split p '|') ∧
      (∀ t, (Split stored '|').count t = (Split p '|').count t) ∧
      stored.length = p.length ∧
      stored.utf8ByteSize = p.utf8ByteSize ∧
      stored.data.Perm p.data := by
  rcases Flip_cases payload env h with ⟨_, hF⟩ | ⟨p, _, _, _, hF⟩ |
    ⟨p, shuffled, hp1, _, _, hsh, hperm, hF⟩
  · rw [hF] at hs; cases hs
  · rw [hF] at hs; cases hs
  · rw [hF] at hs
    have hv : value = storageKey env ++ " -> " ++ Join shuffled "|" :=
      (Outcome.returned.inj hs).symm
    have hne : shuffled ≠ [] := by
      intro hnil
      rw [hnil] at hperm
      have h0 := hperm.length_eq
      rw [Split_length] at h0
      simp at h0
    have hsplit : Split (Join shuffled "|") '|' = shuffled :=
      Split_Join shuffled hne (fun t ht => Split_no_sep p t (hperm.subset ht))
    have hdata : (Join shuffled "|").data.Perm p.data := by
      have h1 := Join_data_perm_of_perm shuffled (Split p '|') hne hperm
      rwa [Join_Split] at h1
    refine ⟨p, shuffled, Join shuffled "|", hp1, hsh, ?_, hv, hsplit, ?_, ?_, ?_, ?_, ?_,
      hdata⟩
    · rw [hF]
      show (committed env (Join shuffled "|") h).state (storageKey env) = _
      rw [state_committed, if_pos rfl]
    · rw [hsplit]; exact hperm.length_eq
    · rw [hsplit]; exact hperm
    · intro t; rw [hsplit]; exact hperm.count_eq t
    · exact hdata.length_eq
    · exact utf8Len_perm hdata

theorem Flip_result_tokens_witness :
    (Flip (some "a|b|c") scenarioEnv emptyHost).1 = Outcome.returned "12345678-0-0 -> c|a|b" ∧
    ∃ p shuffled stored, some "a|b|c" = some p ∧
      shuffleWithSeed (Split p '|')
        (generateSeed scenarioEnv.BlockHeight scenarioEnv.Index scenarioEnv.OpIndex) =
          some shuffled ∧
      (Flip (some "a|b|c") scenarioEnv emptyHost).2.state (storageKey scenarioEnv) =
        some stored ∧
      "12345678-0-0 -> c|a|b" = storageKey scenarioEnv ++ " -> " ++ stored ∧
      Split stored '|' = shuffled ∧
      (Split stored '|').length = (Split p '|').length ∧
      (Split stored '|').Perm (Split p '|') ∧
      (∀ t, (Split stored '|').count t = (Split p '|').count t) ∧
      stored.length = p.length ∧
      stored.utf8ByteSize = p.utf8ByteSize ∧
      stored.data.Perm p.data :=
  ⟨by decide,
    Flip_result_tokens (some "a|b|c") scenarioEnv emptyHost "12345678-0-0 -> c|a|b"
      (by decide)⟩

/-- C19: only the low 32 bits of the seed reach the shuffle: seeds that agree modulo
`2^32` give the same result on every list. -/
theorem shuffleWithSeed_low_bits (items : List String) (s1 s2 : Nat)
    (h : s1 % 2 ^ 32 = s2 % 2 ^ 32) :
    shuffleWithSeed items s1 = shuffleWithSeed items s2 :=
  shuffleWithSeed_congr items s1 s2 h

theorem shuffleWithSeed_low_bits_witness :
    5 % 2 ^ 32 = 4294967301 % 2 ^ 32 ∧
      shuffleWithSeed ["a", "b", "c"] 5 = shuffleWithSeed ["a", "b", "c"] 4294967301 :=
  ⟨by decide, shuffleWithSeed_low_bits ["a", "b", "c"] 5 4294967301 (by decide)⟩

/-- C20: for a list of 13 or more pairwise distinct items some permutation of the list
is returned by `shuffleWithSeed` for no seed: the outputs over all `2^64` seeds are at
most `2^32`, and `13! > 2^32`. -/
theorem shuffleWithSeed_misses_permutation (items : List String) (hnd : items.Nodup)
    (hlen : 13 ≤ items.length) :
    (∃ p, p.Perm items ∧ ∀ seed, shuffleWithSeed items seed ≠ some p) ∧
      ((Finset.range (2 ^ 64)).image (shuffleWithSeed items)).card ≤ 2 ^ 32 ∧
      2 ^ 32 < Nat.factorial 13 := by
  refine ⟨?_, ?_, two_pow_lt_factorial⟩
  · have hP : (items.permutations.toFinset.image some).card =
        Nat.factorial items.length := by
      rw [Finset.card_image_of_injective _ (Option.some_injective _),
        List.toFinset_card_of_nodup (List.nodup_permutations items hnd),
        List.length_permutations]
    have hlt : ((Finset.range (2 ^ 32)).image (shuffleWithSeed items)).card <
        (items.permutations.toFinset.image some).card := by
      rw [hP]
      exact lt_of_le_of_lt (card_outputs_le items)
        (lt_of_lt_of_le two_pow_lt_factorial (Nat.factorial_le hlen))
    have hns : ¬ (items.permutations.toFinset.image some ⊆
        (Finset.range (2 ^ 32)).image (shuffleWithSeed items)) :=
      fun hsub => absurd (Finset.card_le_card hsub) (not_le.2 hlt)
    obtain ⟨e, he, hne⟩ := Finset.not_subset.1 hns
    rw [Finset.mem_image] at he
    obtain ⟨p, hp, rfl⟩ := he
    refine ⟨p, List.mem_permutations.1 (List.mem_toFinset.1 hp), ?_⟩
    intro seed hseed
    exact hne (hseed ▸ shuffleWithSeed_mem_image items seed)
  · refine le_trans (Finset.card_le_card ?_) (card_outputs_le items)
    intro x hx
    rw [Finset.mem_image] at hx
    obtain ⟨seed, _, rfl⟩ := hx
    exact shuffleWithSeed_mem_image items seed

theorem shuffleWithSeed_misses_permutation_witness :
    (thirteenItems.Nodup ∧ 13 ≤ thirteenItems.length) ∧
    ((∃ p, p.Perm thirteenItems ∧ ∀ seed, shuffleWithSeed thirteenItems seed ≠ some p) ∧
      ((Finset.range (2 ^ 64)).image (shuffleWithSeed thirteenItems)).card ≤ 2 ^ 32 ∧
      2 ^ 32 < Nat.factorial 13) :=
  ⟨⟨by decide, by decide⟩,
    shuffleWithSeed_misses_permutation thirteenItems (by decide) (by decide)⟩

end FlipContract
